import Mathlib

/-
Verification of the restaurant feedback system's RBAC authorization model
and client-side aggregation layer.

The embedding covers:
 - the role guard (`canAccessBranch`, `canPerform` in src/hooks/useRoleGuard.ts),
 - the session resolver (`loadAdminData` in the AuthContext provider),
 - the review service (`submitReview`, `getReviews`, `getCustomerFrequency`
   in src/services/firestore.ts),
 - the dashboard daily aggregation (`useDashboardData.fetchData`),
 - the RBAC query-scoping rule (modelled from the spec; its implementing
   service version is not present in the sources, only its callers).

JavaScript numbers carrying ratings are modelled as rationals (`ℚ`) where a
fractional value can occur and as integers (`ℤ`) where the stored value is
integral; timestamps are modelled as natural milliseconds; `null`/`undefined`
string fields are modelled as `Option String`, with the JS falsiness of the
empty string handled explicitly where the source relies on it.
-/

set_option maxRecDepth 100000

namespace RestaurantFeedback

/-- Admin roles: the `AdminRole` union type (`'owner' | 'manager' | 'viewer'`). -/
inductive AdminRole
  | owner
  | manager
  | viewer
deriving DecidableEq, Repr

/-- The slice of the auth context consumed by the role guard and set by the
AuthContext provider: `isAdmin`, `adminRole`, `allowedBranchIds`
(`null` means all branches, `[]` means none, `[ids]` means specific). -/
structure AuthState where
  isAdmin : Bool
  adminRole : Option AdminRole
  allowedBranchIds : Option (List String)
deriving DecidableEq, Repr

/-- Embeds `canAccessBranch` from src/hooks/useRoleGuard.ts: not admin →
false; owner → true; no allowed list → false; else membership test. -/
def canAccessBranch (s : AuthState) (branchId : String) : Bool :=
  if !s.isAdmin then false
  else if s.adminRole = some AdminRole.owner then true
  else
    match s.allowedBranchIds with
    | none => false
    | some ids => ids.contains branchId

/-- The four actions accepted by `canPerform` in src/hooks/useRoleGuard.ts. -/
inductive AdminAction
  | manageAdmins
  | manageBranches
  | exportReports
  | viewReviews
deriving DecidableEq, Repr

/-- Embeds `canPerform` from src/hooks/useRoleGuard.ts. -/
def canPerform (s : AuthState) (action : AdminAction) : Bool :=
  if !s.isAdmin then false
  else
    match action with
    | AdminAction.manageAdmins => s.adminRole = some AdminRole.owner
    | AdminAction.manageBranches => s.adminRole = some AdminRole.owner
    | AdminAction.exportReports =>
        s.adminRole = some AdminRole.owner || s.adminRole = some AdminRole.manager
    | AdminAction.viewReviews => true

/-- An Authorization Record (the `Admin` document looked up by uid):
a role plus an optional list of branch ids. -/
structure Admin where
  id : String
  role : AdminRole
  branchIds : Option (List String)
deriving DecidableEq, Repr

/-- The session state left by the resolver when the caller holds no
authorization: not admin, no role, no branch list. -/
def deniedState : AuthState :=
  { isAdmin := false, adminRole := none, allowedBranchIds := none }

/-- Embeds the success path of `loadAdminData` in the AuthContext provider:
the argument is the result of the `getAdmin(uid)` lookup. On a match the
state is admin with the record's role, and `allowedBranchIds` is `null` for
owners and otherwise the record's list defaulted to `[]`
(JS `admin.branchIds || []`); on no match every field is reset. -/
def loadAdminData (lookup : Option Admin) : AuthState :=
  match lookup with
  | some admin =>
      { isAdmin := true
        adminRole := some admin.role
        allowedBranchIds :=
          if admin.role = AdminRole.owner then none
          else some (admin.branchIds.getD []) }
  | none => deniedState

/-- Failure codes the firestore client can reject with. -/
inductive StoreError
  | unavailable
  | deadlineExceeded
  | permissionDenied
deriving DecidableEq, Repr

/-- Embeds `loadAdminData` together with its catch block: when the
`getAdmin` lookup rejects, the handler logs the error and resets the
session state to the denied state. -/
def loadAdminDataResult (lookup : Except StoreError (Option Admin)) : AuthState :=
  match lookup with
  | Except.ok res => loadAdminData res
  | Except.error _ => deniedState

/-- JS `Math.round` on a rational: floor of `x + 1/2`. -/
def jsRound (q : ℚ) : ℤ := ⌊q + 1 / 2⌋

/-- JS `String.prototype.trim`, written over the character list so that it
evaluates inside the kernel. -/
def jsTrim (s : String) : String :=
  ⟨((s.data.dropWhile Char.isWhitespace).reverse.dropWhile Char.isWhitespace).reverse⟩

/-- JS `x?.trim() || null` applied to an optional string field: a missing
value stays missing and a value trimming to the empty string becomes
`null`, otherwise the trimmed value is kept. -/
def normTrimOpt (o : Option String) : Option String :=
  match o with
  | none => none
  | some s => if jsTrim s = "" then none else some (jsTrim s)

/-- The `ReviewFormData` payload submitted from the feedback form. The
`rating` is a plain JS number and may be fractional. -/
structure ReviewFormData where
  branchId : String
  rating : ℚ
  comment : Option String := none
  customerName : Option String := none
  contact : Option String := none
  billId : Option String := none
deriving DecidableEq, Repr

/-- The review document written to the reviews collection. -/
structure StoredReview where
  branchId : String
  rating : ℤ
  comment : Option String := none
  customerName : Option String := none
  contact : Option String := none
  billId : Option String := none
  createdAt : Nat
deriving DecidableEq, Repr

/-- Embeds `submitReview` from the firestore service (the service version
that validates both rating and branch; the older copy of the file omits the
branch check). Validation happens before the store write; on success the
sanitized document carrying `Math.round(rating)` is written. `now` stands
for the server timestamp. -/
def submitReview (now : Nat) (d : ReviewFormData) : Except String StoredReview :=
  if d.rating < 1 ∨ 5 < d.rating then
    Except.error "Rating must be between 1 and 5"
  else if d.branchId = "" ∨ jsTrim d.branchId = "" then
    Except.error "Branch ID is required"
  else
    Except.ok
      { branchId := jsTrim d.branchId
        rating := jsRound d.rating
        comment := normTrimOpt d.comment
        customerName := normTrimOpt d.customerName
        contact := normTrimOpt d.contact
        billId := normTrimOpt d.billId
        createdAt := now }

/-- The review documents created by one `submitReview` call: one on
success, none on a validation or store error. -/
def submitReviewWrites (now : Nat) (d : ReviewFormData) : List StoredReview :=
  match submitReview now d with
  | Except.ok r => [r]
  | Except.error _ => []

/-- A review document as read back by the admin dashboard. `rating` is
integral once stored; `createdAt` is the timestamp in milliseconds. -/
structure Review where
  id : String
  branchId : String
  rating : ℤ
  comment : Option String := none
  customerName : Option String := none
  contact : Option String := none
  billId : Option String := none
  createdAt : Nat
deriving DecidableEq, Repr

/-- The external store's maximum set size for a "field is one of"
predicate: the fixed threshold 10. -/
def branchInMaxSize : Nat := 10

/-- Modelled from the spec: the backing query with an optional pushed-down
"branchId is one of" predicate, evaluated by the external store. The
RBAC-scoped review fetch (the firestore service variant taking
`allowedBranchIds`, called by the dashboard hook and the export page) is
not among the sources; only its callers and documentation are. -/
def serverQuery (store : List Review) (pred : Option (List String)) : List Review :=
  match pred with
  | none => store
  | some s => store.filter (fun r => s.contains r.branchId)

/-- Modelled from the spec: the predicate the Query Scoping Layer pushes
into the backing query — the whole allowed set when its cardinality is at
most the threshold, nothing otherwise (and nothing for an owner). -/
def scopePredicate (allowed : Option (List String)) : Option (List String) :=
  match allowed with
  | none => none
  | some s => if s.length ≤ branchInMaxSize then some s else none

/-- Modelled from the spec: the client-side post-filter applied to the
fetched rows — a membership filter exactly when the allowed set was too
large to push down. -/
def clientScope (allowed : Option (List String)) (rows : List Review) : List Review :=
  match allowed with
  | none => rows
  | some s =>
      if s.length ≤ branchInMaxSize then rows
      else rows.filter (fun r => s.contains r.branchId)

/-- Modelled from the spec: the full RBAC-scoped fetch — backing query with
the pushed predicate, then the client-side post-filter. -/
def fetchScopedReviews (store : List Review) (allowed : Option (List String)) :
    List Review :=
  clientScope allowed (serverQuery store (scopePredicate allowed))

/-- The filter and pagination options of `getReviews`. `lastDoc` is the
position, in the createdAt-descending snapshot, of the cursor document. -/
structure ReviewQueryOptions where
  branchId : Option String := none
  dateRange : Option (Nat × Nat) := none
  minRating : Option ℤ := none
  maxRating : Option ℤ := none
  pageSize : Nat := 20
  lastDoc : Option Nat := none
deriving Repr

/-- The client-side filter of `getReviews`: branch match, date range
bounds, rating bounds — each applied only when requested. -/
def passesFilters (o : ReviewQueryOptions) (r : Review) : Bool :=
  (match o.branchId with
    | none => true
    | some b => r.branchId = b) &&
  (match o.dateRange with
    | none => true
    | some se => decide (se.1 ≤ r.createdAt) && decide (r.createdAt ≤ se.2)) &&
  (match o.minRating with
    | none => true
    | some m => decide (m ≤ r.rating)) &&
  (match o.maxRating with
    | none => true
    | some m => decide (r.rating ≤ m))

/-- The page returned by `getReviews`: the sliced reviews, the cursor of
the last returned document, and the has-more flag. -/
structure ReviewPage where
  reviews : List Review
  lastDoc : Option Nat
  hasMore : Bool
deriving DecidableEq, Repr

/-- The batch `getReviews` fetches from the store: all documents after the
cursor in the createdAt-descending snapshot, capped by `limit(500)`. -/
def fetchedBatch (store : List Review) (o : ReviewQueryOptions) :
    List (Nat × Review) :=
  (match o.lastDoc with
    | none => store.enum
    | some i => store.enum.filter (fun p => decide (i < p.1))).take 500

/-- The fetched batch after the client-side filters. -/
def filteredBatch (store : List Review) (o : ReviewQueryOptions) :
    List (Nat × Review) :=
  (fetchedBatch store o).filter (fun p => passesFilters o p.2)

/-- Embeds `getReviews` from the firestore service. The store list is the
reviews collection already in the backing query's createdAt-descending
order (ordering is delegated to the external store). The query takes at
most 500 documents after the cursor, filters client-side, slices the
filtered list to `pageSize`, and reports `hasMore` as whether the filtered
list was longer than the page. -/
def getReviews (store : List Review) (o : ReviewQueryOptions) : ReviewPage :=
  let page := (filteredBatch store o).take o.pageSize
  { reviews := page.map (fun p => p.2)
    lastDoc := (page.getLast?).map (fun p => p.1)
    hasMore := decide (o.pageSize < (filteredBatch store o).length) }

/-- The 3-branches × 5-reviews fixture (15 reviews, createdAt
descending). -/
def fixtureReviews : List Review :=
  (List.range 15).map (fun i =>
    { id := "r" ++ toString i
      branchId := "b" ++ toString (i % 3 + 1)
      rating := 5
      createdAt := 15000 - 1000 * i })

/-- A store larger than the 500-document over-fetch: 500 rating-1 reviews
followed by one rating-5 review. -/
def overflowReview : Review :=
  { id := "past-the-fetch-window", branchId := "b1", rating := 5, createdAt := 7 }

/-- 500 rating-1 reviews (createdAt descending) followed by
`overflowReview`. -/
def overflowStore : List Review :=
  (List.range 500).map (fun i =>
    { id := "f" ++ toString i, branchId := "b1", rating := 1,
      createdAt := 1000000 - i }) ++ [overflowReview]

/-- A filter only `overflowReview` passes. -/
def overflowOptions : ReviewQueryOptions := { minRating := some 5, pageSize := 10 }

/-- Eleven branch ids: one more than the pushdown threshold. -/
def elevenBranches : List String :=
  ["c1", "c2", "c3", "c4", "c5", "c6", "c7", "c8", "c9", "c10", "c11"]

/-- Milliseconds per calendar day. -/
def msPerDay : Nat := 86400000

/-- The calendar day of a timestamp: the `format(createdAt, 'yyyy-MM-dd')`
bucket key, modelled as the day number. -/
def dayOf (t : Nat) : Nat := t / msPerDay

/-- JS `Math.round(x * 10) / 10`: rounding to one decimal place, half
up. -/
def round1 (q : ℚ) : ℚ := (jsRound (q * 10) : ℚ) / 10

/-- The pre-seeded daily buckets of `useDashboardData.fetchData`: one
`(day, count, totalRating)` triple per calendar day of
`eachDayOfInterval(start, end)`, chronologically ascending, starting at
zero. -/
def seedBuckets (s e : Nat) : List (Nat × Nat × ℤ) :=
  (List.range (e + 1 - s)).map (fun i => (s + i, 0, 0))

/-- Folding one review into the bucket list: the bucket whose key equals
the given day is bumped; with no matching bucket the review is dropped
(the `if (current)` guard in the source). -/
def bumpBucket (m : List (Nat × Nat × ℤ)) (d : Nat) (rating : ℤ) :
    List (Nat × Nat × ℤ) :=
  m.map (fun p => if p.1 = d then (p.1, p.2.1 + 1, p.2.2 + rating) else p)

/-- Folding a review list into the seeded buckets, in list order. -/
def foldBuckets (m : List (Nat × Nat × ℤ)) (rs : List Review) :
    List (Nat × Nat × ℤ) :=
  rs.foldl (fun acc r => bumpBucket acc (dayOf r.createdAt) r.rating) m

/-- One row of the dashboard's daily statistics. -/
structure DailyStat where
  date : Nat
  count : Nat
  averageRating : ℚ
deriving DecidableEq, Repr

/-- Shaping one `(day, count, totalRating)` bucket into a `DailyStat` row:
`averageRating` is the one-decimal rounded mean when the count is
positive, else 0. -/
def toDailyStat (p : Nat × Nat × ℤ) : DailyStat :=
  { date := p.1
    count := p.2.1
    averageRating :=
      if 0 < p.2.1 then round1 ((p.2.2 : ℚ) / (p.2.1 : ℚ)) else 0 }

/-- Embeds the daily-stats computation of `useDashboardData.fetchData`:
seed one bucket per calendar day of `[s, e]`, fold every review into the
bucket of its creation day, then emit `{date, count, averageRating}` rows
in bucket (insertion) order. -/
def dailyStats (reviews : List Review) (s e : Nat) : List DailyStat :=
  (foldBuckets (seedBuckets s e) reviews).map toDailyStat

/-- A three-day fixture for the daily statistics: two reviews on day 10,
none on day 11, one on day 12. -/
def fixtureDaily : List Review :=
  [{ id := "d1", branchId := "b1", rating := 5, createdAt := 12 * msPerDay + 600 },
   { id := "d2", branchId := "b1", rating := 4, createdAt := 10 * msPerDay + 50 },
   { id := "d3", branchId := "b2", rating := 3, createdAt := 10 * msPerDay + 20 }]

/-- JS truthiness of an optional string field: `null`/`undefined` and the
empty string are falsy. -/
def truthyStr (o : Option String) : Bool :=
  match o with
  | none => false
  | some s => s ≠ ""

/-- One in-progress customer aggregation entry of `getCustomerFrequency`. -/
structure CustAgg where
  customerName : Option String
  count : Nat
  totalRating : ℤ
  lastReview : Nat
deriving DecidableEq, Repr

/-- The entry created for a contact's first review
(`customerName: review.customerName || undefined`). -/
def initAgg (r : Review) : CustAgg :=
  { customerName := if truthyStr r.customerName then r.customerName else none
    count := 1
    totalRating := r.rating
    lastReview := r.createdAt }

/-- Folding a later review of the same contact into its entry: count and
total grow, `lastReview` keeps the latest date, `customerName` is set only
while still missing and only to a non-empty name. -/
def updAgg (a : CustAgg) (r : Review) : CustAgg :=
  { customerName :=
      if truthyStr r.customerName && !truthyStr a.customerName then r.customerName
      else a.customerName
    count := a.count + 1
    totalRating := a.totalRating + r.rating
    lastReview := if a.lastReview < r.createdAt then r.createdAt else a.lastReview }

/-- The grouping key of a review: its contact when truthy, nothing
otherwise (the `if (!review.contact) return` guard). -/
def contactKey (r : Review) : Option String :=
  match r.contact with
  | none => none
  | some c => if c = "" then none else some c

/-- Whether a timestamp lies inside an optional date range: the
client-side range filter of the statistics paths. -/
def inDateRange (dateRange : Option (Nat × Nat)) (t : Nat) : Bool :=
  match dateRange with
  | none => true
  | some se => decide (se.1 ≤ t) && decide (t ≤ se.2)

/-- One step of the contact aggregation of `getCustomerFrequency`: a
review with a falsy contact or outside the range is skipped; a known
contact's entry is updated in place; a new contact is appended (the JS
`Map` keeps insertion order). -/
def custStep (dateRange : Option (Nat × Nat)) (m : List (String × CustAgg))
    (r : Review) : List (String × CustAgg) :=
  match contactKey r with
  | none => m
  | some c =>
      if !inDateRange dateRange r.createdAt then m
      else
        match m.find? (fun p => p.1 = c) with
        | some _ => m.map (fun p => if p.1 = c then (p.1, updAgg p.2 r) else p)
        | none => m ++ [(c, initAgg r)]

/-- One output row of `getCustomerFrequency`. -/
structure CustFreq where
  contact : String
  customerName : Option String
  count : Nat
  avgRating : ℚ
  lastReview : Nat
deriving DecidableEq, Repr

/-- Shaping one surviving map entry into an output row. -/
def toCustFreq (p : String × CustAgg) : CustFreq :=
  { contact := p.1
    customerName := p.2.customerName
    count := p.2.count
    avgRating := round1 ((p.2.totalRating : ℚ) / (p.2.count : ℚ))
    lastReview := p.2.lastReview }

/-- Stable insertion for the count-descending order: the row moves past
every strictly larger or equal count and lands before the first strictly
smaller one, so rows with equal counts keep their relative order — the
behaviour of the JS stable `sort` with comparator `b.count - a.count`. -/
def insertByCountDesc (x : CustFreq) : List CustFreq → List CustFreq
  | [] => [x]
  | y :: ys =>
      if x.count < y.count then y :: insertByCountDesc x ys else x :: y :: ys

/-- The JS stable sort with comparator `(a, b) => b.count - a.count`. -/
def sortByCountDesc (l : List CustFreq) : List CustFreq :=
  l.foldr insertByCountDesc []

/-- Embeds `getCustomerFrequency` from the firestore service: aggregate
per contact over the collection, drop groups below `minReviews`, shape the
rows, and sort by count descending. -/
def getCustomerFrequency (store : List Review) (dateRange : Option (Nat × Nat))
    (minReviews : Nat) : List CustFreq :=
  sortByCountDesc (((store.foldl (custStep dateRange) []).filter
    (fun p => minReviews ≤ p.2.count)).map toCustFreq)

/-- The reviews of one contact group, in store order. -/
def groupReviews (c : String) (store : List Review) : List Review :=
  store.filter (fun r => contactKey r = some c)

/-- The first non-empty customer name of a review list. -/
def firstName (g : List Review) : Option String :=
  match g.find? (fun r => truthyStr r.customerName) with
  | some r => r.customerName
  | none => none

/-- Folding one review into an optional aggregation entry: the first
review creates the entry, later ones update it. -/
def stepOpt (o : Option CustAgg) (r : Review) : Option CustAgg :=
  match o with
  | none => some (initAgg r)
  | some a => some (updAgg a r)

/-- The aggregation entry stored at a contact key. -/
def lookupC (m : List (String × CustAgg)) (c : String) : Option CustAgg :=
  (m.find? (fun p => p.1 = c)).map (fun p => p.2)

/-- A fixture for the customer frequency: the contact 0790000001 has two
reviews (the second anonymous), 0790000002 has one, and one review has no
contact at all. -/
def fixtureCust : List Review :=
  [{ id := "c1", branchId := "b1", rating := 5, contact := some "0790000001",
     customerName := some "Ali", createdAt := 300 },
   { id := "c2", branchId := "b1", rating := 3, contact := some "0790000001",
     createdAt := 500 },
   { id := "c3", branchId := "b2", rating := 4, contact := some "0790000002",
     customerName := some "Dana", createdAt := 400 },
   { id := "c4", branchId := "b2", rating := 4, createdAt := 450 }]

end RestaurantFeedback

namespace RestaurantFeedback

/-- C1: in any auth context, an owner can access every branch id; a manager
or viewer whose context carries the allowed set `S` can access a branch id
iff it lies in `S` (hence never when `S` is empty); and without an
authenticated admin context every branch access is denied. -/
theorem owner_all_manager_member_branch_access (s : AuthState) (branchId : String) :
    (s.isAdmin = true → s.adminRole = some AdminRole.owner →
      canAccessBranch s branchId = true) ∧
    (∀ r S, s.isAdmin = true → s.adminRole = some r →
      (r = AdminRole.manager ∨ r = AdminRole.viewer) →
      s.allowedBranchIds = some S →
      (canAccessBranch s branchId = true ↔ branchId ∈ S)) ∧
    (s.isAdmin = false → canAccessBranch s branchId = false) := by
  refine ⟨fun ha ho => ?_, fun r S ha hr hro hS => ?_, fun ha => ?_⟩
  · simp [canAccessBranch, ha, ho]
  · have hne : s.adminRole ≠ some AdminRole.owner := by
      rcases hro with h | h <;> simp [hr, h]
    simp [canAccessBranch, ha, hne, hS]
  · simp [canAccessBranch, ha]

/-- Witness for C1 at concrete contexts: an owner reaches an arbitrary id,
a manager with allowed set `["b1", "b2"]` reaches `b1`, and the
unauthenticated state reaches nothing. -/
theorem owner_all_manager_member_branch_access_witness :
    canAccessBranch ⟨true, some AdminRole.owner, none⟩ "no-such-branch" = true ∧
    (canAccessBranch ⟨true, some AdminRole.manager, some ["b1", "b2"]⟩ "b1" = true
      ↔ "b1" ∈ ["b1", "b2"]) ∧
    canAccessBranch deniedState "b1" = false := by
  refine ⟨?_, ?_, ?_⟩
  · exact (owner_all_manager_member_branch_access _ "no-such-branch").1 rfl rfl
  · exact (owner_all_manager_member_branch_access _ "b1").2.1 AdminRole.manager
      ["b1", "b2"] rfl rfl (Or.inl rfl) rfl
  · exact (owner_all_manager_member_branch_access _ "b1").2.2 rfl

/-- C2: `canPerform exportReports` holds exactly for owner or manager
contexts; `manageAdmins` and `manageBranches` exactly for owners;
`viewReviews` for every admin context; everything is denied without an
admin context. -/
theorem canPerform_role_table (s : AuthState) :
    (canPerform s AdminAction.exportReports = true ↔
      s.isAdmin = true ∧
        (s.adminRole = some AdminRole.owner ∨ s.adminRole = some AdminRole.manager)) ∧
    (canPerform s AdminAction.manageAdmins = true ↔
      s.isAdmin = true ∧ s.adminRole = some AdminRole.owner) ∧
    (canPerform s AdminAction.manageBranches = true ↔
      s.isAdmin = true ∧ s.adminRole = some AdminRole.owner) ∧
    (canPerform s AdminAction.viewReviews = true ↔ s.isAdmin = true) := by
  obtain ⟨a, r, ids⟩ := s
  cases a <;> rcases r with _ | r <;> try cases r
  all_goals simp [canPerform]

/-- C3: the resolver yields the denied state when no Authorization Record
matches; on a match it yields an admin context carrying the record's role,
whose `allowedBranchIds` is `null` exactly when the role is owner and
otherwise is the record's branch list defaulted to the empty list. -/
theorem resolver_none_denied_match_scoped (admin : Admin) :
    loadAdminData none = deniedState ∧
    (loadAdminData (some admin)).isAdmin = true ∧
    (loadAdminData (some admin)).adminRole = some admin.role ∧
    ((loadAdminData (some admin)).allowedBranchIds = none ↔
      admin.role = AdminRole.owner) ∧
    (admin.role ≠ AdminRole.owner →
      (loadAdminData (some admin)).allowedBranchIds = some (admin.branchIds.getD [])) := by
  refine ⟨rfl, rfl, rfl, ?_, fun h => ?_⟩
  · by_cases h : admin.role = AdminRole.owner <;> simp [loadAdminData, h]
  · simp [loadAdminData, h]

/-- Witness for C3 at a concrete viewer record with no stored branch list:
the resolved context defaults to the empty branch set. -/
theorem resolver_none_denied_match_scoped_witness :
    (loadAdminData (some ⟨"u1", AdminRole.viewer, none⟩)).allowedBranchIds = some [] ∧
    loadAdminData none = deniedState := by
  refine ⟨?_, (resolver_none_denied_match_scoped ⟨"u1", AdminRole.viewer, none⟩).1⟩
  exact (resolver_none_denied_match_scoped ⟨"u1", AdminRole.viewer, none⟩).2.2.2.2
    (by simp)

/-- C9 counterexample: when the store is unavailable during identity
resolution, the resolver's catch block produces exactly the same session
state as the "no Authorization Record found" outcome — the denied state —
so the failure is not distinct from not-found and is treated as denial,
with nothing retryable propagated. -/
theorem store_failure_equals_not_found :
    loadAdminDataResult (Except.error StoreError.unavailable) =
      loadAdminDataResult (Except.ok none) ∧
    loadAdminDataResult (Except.error StoreError.unavailable) = deniedState :=
  ⟨rfl, rfl⟩

/-- C9 amended: every store failure during identity resolution is caught
and mapped to the denied session state, the same state the resolver yields
when no Authorization Record matches; no retryable error is propagated. -/
theorem store_failure_resolves_to_denied (e : StoreError) :
    loadAdminDataResult (Except.error e) = deniedState ∧
    loadAdminDataResult (Except.ok none) = deniedState :=
  ⟨rfl, rfl⟩

/-- C8: a submission whose rating lies outside 1–5 is rejected with the
rating-specific validation error; one whose rating is in range but whose
required branch id is empty (or all whitespace) is rejected with the
branch-specific error; in both cases no review document is created. -/
theorem invalid_submission_rejected_before_write (now : Nat) (d : ReviewFormData) :
    (d.rating < 1 ∨ 5 < d.rating →
      submitReview now d = Except.error "Rating must be between 1 and 5" ∧
      submitReviewWrites now d = []) ∧
    (1 ≤ d.rating → d.rating ≤ 5 → d.branchId = "" ∨ jsTrim d.branchId = "" →
      submitReview now d = Except.error "Branch ID is required" ∧
      submitReviewWrites now d = []) := by
  constructor
  · intro h
    have he : submitReview now d = Except.error "Rating must be between 1 and 5" := by
      simp [submitReview, h]
    exact ⟨he, by simp [submitReviewWrites, he]⟩
  · intro h1 h2 hb
    have hcond : ¬(d.rating < 1 ∨ 5 < d.rating) := by
      push_neg
      exact ⟨h1, h2⟩
    have he : submitReview now d = Except.error "Branch ID is required" := by
      simp [submitReview, hcond, hb]
    exact ⟨he, by simp [submitReviewWrites, he]⟩

/-- Witness for C8: a submission with rating 6 is rejected with the rating
validation error and nothing is written. -/
theorem invalid_submission_rejected_before_write_witness :
    submitReview 0 { branchId := "b1", rating := 6 } =
      Except.error "Rating must be between 1 and 5" ∧
    submitReviewWrites 0 { branchId := "b1", rating := 6 } = [] :=
  (invalid_submission_rejected_before_write 0 { branchId := "b1", rating := 6 }).1
    (by norm_num)

/-- C10: any rating in the closed interval [1, 5] — integral or not —
passes validation unchanged, and the stored document carries
`Math.round(rating)`, an integer again lying in [1, 5]. -/
theorem fractional_rating_rounded_in_range (now : Nat) (d : ReviewFormData)
    (h1 : 1 ≤ d.rating) (h2 : d.rating ≤ 5) (hb : jsTrim d.branchId ≠ "") :
    ∃ r, submitReview now d = Except.ok r ∧
      r.rating = jsRound d.rating ∧ 1 ≤ r.rating ∧ r.rating ≤ 5 := by
  have hcond : ¬(d.rating < 1 ∨ 5 < d.rating) := by
    push_neg
    exact ⟨h1, h2⟩
  have hb2 : ¬(d.branchId = "" ∨ jsTrim d.branchId = "") := by
    push_neg
    refine ⟨fun he => hb ?_, hb⟩
    rw [he]
    rfl
  refine ⟨{ branchId := jsTrim d.branchId, rating := jsRound d.rating,
            comment := normTrimOpt d.comment, customerName := normTrimOpt d.customerName,
            contact := normTrimOpt d.contact, billId := normTrimOpt d.billId,
            createdAt := now }, ?_, rfl, ?_, ?_⟩
  · simp [submitReview, hcond, hb2]
  · show (1 : ℤ) ≤ jsRound d.rating
    rw [jsRound, Int.le_floor]
    push_cast
    linarith
  · show jsRound d.rating ≤ 5
    have hlt : jsRound d.rating < 6 := by
      rw [jsRound, Int.floor_lt]
      push_cast
      linarith
    omega

/-- C4: an owner context (null allowed set) adds no branch restriction; an
allowed set of cardinality at most 10 is pushed down as the backing
query's "branchId is one of" predicate; a larger set is not pushed down
(the backing query returns the unrestricted rows) and membership is
instead applied as the client-side filter — in both restricted cases the
returned rows are exactly the store rows whose branch lies in the set. -/
theorem scoped_fetch_pushdown_threshold (store : List Review) (S : List String) :
    (scopePredicate none = none ∧ fetchScopedReviews store none = store) ∧
    (S.length ≤ 10 →
      scopePredicate (some S) = some S ∧
      fetchScopedReviews store (some S) =
        store.filter (fun r => S.contains r.branchId)) ∧
    (10 < S.length →
      scopePredicate (some S) = none ∧
      serverQuery store (scopePredicate (some S)) = store ∧
      fetchScopedReviews store (some S) =
        store.filter (fun r => S.contains r.branchId)) := by
  refine ⟨⟨rfl, rfl⟩, fun h => ?_, fun h => ?_⟩
  · exact ⟨by simp [scopePredicate, branchInMaxSize, h],
      by simp [fetchScopedReviews, scopePredicate, serverQuery, clientScope,
        branchInMaxSize, h]⟩
  · have h2 : ¬ S.length ≤ 10 := Nat.not_le.mpr h
    exact ⟨by simp [scopePredicate, branchInMaxSize, h2],
      by simp [serverQuery, scopePredicate, branchInMaxSize, h2],
      by simp [fetchScopedReviews, scopePredicate, serverQuery, clientScope,
        branchInMaxSize, h2]⟩

/-- Witness for C4: a one-element allowed set is pushed down, an
eleven-element one is not, and both scope the fixture rows to the allowed
branches. -/
theorem scoped_fetch_pushdown_threshold_witness :
    (List.length ["b1"] ≤ 10 ∧ scopePredicate (some ["b1"]) = some ["b1"] ∧
      fetchScopedReviews fixtureReviews (some ["b1"]) =
        fixtureReviews.filter (fun r => List.contains ["b1"] r.branchId)) ∧
    (10 < elevenBranches.length ∧ scopePredicate (some elevenBranches) = none ∧
      fetchScopedReviews fixtureReviews (some elevenBranches) =
        fixtureReviews.filter (fun r => elevenBranches.contains r.branchId)) := by
  constructor
  · exact ⟨by decide,
      ((scoped_fetch_pushdown_threshold fixtureReviews ["b1"]).2.1 (by decide)).1,
      ((scoped_fetch_pushdown_threshold fixtureReviews ["b1"]).2.1 (by decide)).2⟩
  · exact ⟨by decide,
      ((scoped_fetch_pushdown_threshold fixtureReviews elevenBranches).2.2
        (by decide)).1,
      ((scoped_fetch_pushdown_threshold fixtureReviews elevenBranches).2.2
        (by decide)).2.2⟩

/-- C5 counterexample: with 501 stored reviews of which only the 501st
passes the rating filter, the 500-document over-fetch never sees it: the
returned page is empty and `hasMore` is false, although a record passing
the filters exists in the store beyond the returned slice. -/
theorem hasMore_misses_record_beyond_fetch_window :
    (getReviews overflowStore overflowOptions).reviews = [] ∧
    (getReviews overflowStore overflowOptions).hasMore = false ∧
    overflowReview ∈ overflowStore ∧
    passesFilters overflowOptions overflowReview = true ∧
    overflowReview ∉ (getReviews overflowStore overflowOptions).reviews := by
  have h : getReviews overflowStore overflowOptions =
      { reviews := [], lastDoc := none, hasMore := false } := by decide
  refine ⟨by rw [h], by rw [h], ?_, rfl, ?_⟩
  · exact List.mem_append_right _ (List.mem_singleton_self _)
  · rw [h]
    simp

/-- C5 amended: `getReviews` returns at most `pageSize` items, and
`hasMore` holds iff a record passing the filters exists beyond the
returned slice within the fetched batch of at most 500 documents after
the cursor (matches farther down the store are not reflected); the
3-branches × 5-reviews fixture paginates into a full first page of 10
with `hasMore` and a second page of the remaining 5 without. -/
theorem getReviews_page_size_hasMore (store : List Review) (o : ReviewQueryOptions) :
    ((getReviews store o).reviews.length ≤ o.pageSize ∧
      ((getReviews store o).hasMore = true ↔
        (filteredBatch store o).drop o.pageSize ≠ [])) ∧
    ((getReviews fixtureReviews { pageSize := 10 }).reviews.length = 10 ∧
      (getReviews fixtureReviews { pageSize := 10 }).hasMore = true ∧
      (getReviews fixtureReviews { pageSize := 10 }).lastDoc = some 9 ∧
      (getReviews fixtureReviews { pageSize := 10, lastDoc := some 9 }).reviews.length = 5 ∧
      (getReviews fixtureReviews { pageSize := 10, lastDoc := some 9 }).hasMore = false ∧
      (getReviews fixtureReviews { pageSize := 10 }).reviews ++
        (getReviews fixtureReviews { pageSize := 10, lastDoc := some 9 }).reviews =
          fixtureReviews) := by
  refine ⟨⟨?_, ?_⟩, by decide⟩
  · simp only [getReviews, List.length_map, List.length_take]
    exact min_le_left _ _
  · simp only [getReviews, decide_eq_true_eq, Ne, List.drop_eq_nil_iff]
    omega

/-- `bumpBucket` preserves the bucket-list length. -/
theorem length_bumpBucket (m : List (Nat × Nat × ℤ)) (d : Nat) (rating : ℤ) :
    (bumpBucket m d rating).length = m.length := by
  simp [bumpBucket]

/-- The bucket at a given position after one bump. -/
theorem bumpBucket_getElem? (m : List (Nat × Nat × ℤ)) (d : Nat) (rating : ℤ)
    (i : Nat) :
    (bumpBucket m d rating)[i]? = m[i]?.map
      (fun p => if p.1 = d then (p.1, p.2.1 + 1, p.2.2 + rating) else p) := by
  simp [bumpBucket]

/-- `foldBuckets` preserves the bucket-list length. -/
theorem length_foldBuckets (rs : List Review) :
    ∀ m : List (Nat × Nat × ℤ), (foldBuckets m rs).length = m.length := by
  induction rs with
  | nil => intro m; rfl
  | cons r rs ih =>
      intro m
      have h1 : foldBuckets m (r :: rs) =
          foldBuckets (bumpBucket m (dayOf r.createdAt) r.rating) rs := rfl
      rw [h1, ih, length_bumpBucket]

/-- After folding a review list, every bucket keeps its key, and its count
has grown by the number of folded reviews created on that key's day. -/
theorem foldBuckets_getElem? (rs : List Review) :
    ∀ (m : List (Nat × Nat × ℤ)) (i : Nat) (p : Nat × Nat × ℤ), m[i]? = some p →
      ∃ z : ℤ, (foldBuckets m rs)[i]? =
        some (p.1, p.2.1 + (rs.filter (fun r => dayOf r.createdAt = p.1)).length, z) := by
  induction rs with
  | nil =>
      intro m i p hp
      exact ⟨p.2.2, by simp [foldBuckets, hp]⟩
  | cons r rs ih =>
      intro m i p hp
      have hstep : foldBuckets m (r :: rs) =
          foldBuckets (bumpBucket m (dayOf r.createdAt) r.rating) rs := rfl
      rw [hstep]
      by_cases hd : p.1 = dayOf r.createdAt
      · have hp2 : (bumpBucket m (dayOf r.createdAt) r.rating)[i]? =
            some (p.1, p.2.1 + 1, p.2.2 + r.rating) := by
          rw [bumpBucket_getElem?, hp]
          simp [hd]
        obtain ⟨z, hz⟩ := ih (bumpBucket m (dayOf r.createdAt) r.rating) i _ hp2
        refine ⟨z, ?_⟩
        rw [hz]
        have hcnt : ((r :: rs).filter (fun r2 => dayOf r2.createdAt = p.1)).length
            = (rs.filter (fun r2 => dayOf r2.createdAt = p.1)).length + 1 := by
          rw [List.filter_cons]
          simp [hd]
        rw [hcnt]
        have harith : p.2.1 + 1 +
              (rs.filter (fun r2 => dayOf r2.createdAt = p.1)).length
            = p.2.1 + ((rs.filter (fun r2 => dayOf r2.createdAt = p.1)).length + 1) := by
          omega
        rw [harith]
      · have hp2 : (bumpBucket m (dayOf r.createdAt) r.rating)[i]? = some p := by
          rw [bumpBucket_getElem?, hp]
          simp [hd]
        obtain ⟨z, hz⟩ := ih (bumpBucket m (dayOf r.createdAt) r.rating) i p hp2
        refine ⟨z, ?_⟩
        rw [hz]
        have hcnt : ((r :: rs).filter (fun r2 => dayOf r2.createdAt = p.1)).length
            = (rs.filter (fun r2 => dayOf r2.createdAt = p.1)).length := by
          rw [List.filter_cons]
          have hdec : decide (dayOf r.createdAt = p.1) = false := by
            simp
            exact fun he => hd he.symm
          rw [hdec]
          simp
        rw [hcnt]

/-- The seeded bucket at position `i` is day `s + i`, starting at zero. -/
theorem seedBuckets_getElem? (s e i : Nat) (hi : i < e + 1 - s) :
    (seedBuckets s e)[i]? = some (s + i, 0, 0) := by
  simp [seedBuckets, hi]

/-- C6: `dailyStats` has exactly one bucket per calendar day of `[s, e]`
inclusive (its length is the number of days), the i-th row carries day
`s + i` — so the rows are chronologically ascending — and counts exactly
the reviews created on that day (so a day with no review appears with
count 0). -/
theorem dailyStats_bucket_per_day (reviews : List Review) (s e : Nat) (h : s ≤ e) :
    (dailyStats reviews s e).length = e - s + 1 ∧
    (∀ i, i < (dailyStats reviews s e).length →
      ∃ row, (dailyStats reviews s e)[i]? = some row ∧
        row.date = s + i ∧
        row.count = (reviews.filter (fun r => dayOf r.createdAt = s + i)).length) ∧
    List.Sorted (fun a b => a.date < b.date) (dailyStats reviews s e) := by
  have hlen : (dailyStats reviews s e).length = e + 1 - s := by
    simp [dailyStats, length_foldBuckets, seedBuckets]
  have hmain : ∀ i, i < (dailyStats reviews s e).length →
      ∃ row, (dailyStats reviews s e)[i]? = some row ∧
        row.date = s + i ∧
        row.count = (reviews.filter (fun r => dayOf r.createdAt = s + i)).length := by
    intro i hi
    have hi2 : i < e + 1 - s := by
      rw [← hlen]
      exact hi
    obtain ⟨z, hz⟩ := foldBuckets_getElem? reviews (seedBuckets s e) i (s + i, 0, 0)
      (seedBuckets_getElem? s e i hi2)
    have hds : (dailyStats reviews s e)[i]? =
        ((foldBuckets (seedBuckets s e) reviews)[i]?).map toDailyStat := by
      simp [dailyStats]
    rw [hz] at hds
    simp only [Option.map_some'] at hds
    exact ⟨_, hds, by simp [toDailyStat], by simp [toDailyStat]⟩
  refine ⟨by omega, hmain, ?_⟩
  rw [List.Sorted, List.pairwise_iff_get]
  intro a b hab
  obtain ⟨rowa, hva, hda, _⟩ := hmain a.1 a.2
  obtain ⟨rowb, hvb, hdb, _⟩ := hmain b.1 b.2
  have hga : (dailyStats reviews s e).get a = rowa := by
    have h1 := List.getElem?_eq_getElem a.2
    rw [hva] at h1
    rw [List.get_eq_getElem]
    exact (Option.some.inj h1).symm
  have hgb : (dailyStats reviews s e).get b = rowb := by
    have h1 := List.getElem?_eq_getElem b.2
    rw [hvb] at h1
    rw [List.get_eq_getElem]
    exact (Option.some.inj h1).symm
  rw [hga, hgb, hda, hdb]
  have hab2 : a.1 < b.1 := hab
  omega

/-- Witness for C6 on the three-day fixture (two reviews on day 10, none
on day 11, one on day 12): the range hypothesis holds, the theorem gives
the length, and the buckets evaluate to the expected days and counts. -/
theorem dailyStats_bucket_per_day_witness :
    (10 : Nat) ≤ 12 ∧
    (dailyStats fixtureDaily 10 12).length = 12 - 10 + 1 ∧
    (dailyStats fixtureDaily 10 12).map (fun row => (row.date, row.count)) =
      [(10, 2), (11, 0), (12, 1)] := by
  refine ⟨by decide, (dailyStats_bucket_per_day fixtureDaily 10 12 (by decide)).1, ?_⟩
  decide


/-- Witness for C10 at the fractional rating 4.6: accepted, and stored
rounded to 5. -/
theorem fractional_rating_rounded_in_range_witness :
    (1 : ℚ) ≤ 46 / 10 ∧ (46 / 10 : ℚ) ≤ 5 ∧ jsTrim "b1" ≠ "" ∧
    jsRound (46 / 10) = 5 ∧
    (∃ r, submitReview 0 { branchId := "b1", rating := 46 / 10 } = Except.ok r ∧
      r.rating = jsRound (46 / 10) ∧ 1 ≤ r.rating ∧ r.rating ≤ 5) :=
  ⟨by norm_num, by norm_num, by decide,
    by rw [jsRound, Int.floor_eq_iff]; norm_num,
    fractional_rating_rounded_in_range 0 { branchId := "b1", rating := 46 / 10 }
      (by norm_num) (by norm_num) (by decide)⟩

/-- Membership through the stable insertion. -/
theorem mem_insertByCountDesc (x z : CustFreq) (l : List CustFreq) :
    z ∈ insertByCountDesc x l ↔ z = x ∨ z ∈ l := by
  induction l with
  | nil => simp [insertByCountDesc]
  | cons y ys ih =>
      by_cases h : x.count < y.count
      · simp [insertByCountDesc, h, ih]
        try tauto
      · simp [insertByCountDesc, h]
        try tauto

/-- The stable insertion preserves the count-descending order. -/
theorem sorted_insertByCountDesc (x : CustFreq) (l : List CustFreq)
    (h : List.Sorted (fun a b : CustFreq => b.count ≤ a.count) l) :
    List.Sorted (fun a b : CustFreq => b.count ≤ a.count) (insertByCountDesc x l) := by
  induction l with
  | nil => simp [insertByCountDesc]
  | cons y ys ih =>
      rw [List.sorted_cons] at h
      by_cases hc : x.count < y.count
      · rw [insertByCountDesc, if_pos hc, List.sorted_cons]
        constructor
        · intro z hz
          rcases (mem_insertByCountDesc x z ys).mp hz with hz | hz
          · rw [hz]
            omega
          · exact h.1 z hz
        · exact ih h.2
      · rw [insertByCountDesc, if_neg hc, List.sorted_cons]
        refine ⟨?_, List.sorted_cons.mpr h⟩
        intro z hz
        rcases List.mem_cons.mp hz with hz | hz
        · rw [hz]
          omega
        · have := h.1 z hz
          omega

/-- Membership through the stable sort. -/
theorem mem_sortByCountDesc (z : CustFreq) (l : List CustFreq) :
    z ∈ sortByCountDesc l ↔ z ∈ l := by
  induction l with
  | nil => simp [sortByCountDesc]
  | cons y ys ih =>
      have hstep : sortByCountDesc (y :: ys) =
          insertByCountDesc y (sortByCountDesc ys) := rfl
      rw [hstep, mem_insertByCountDesc, ih, List.mem_cons]

/-- The stable sort orders rows by count, descending. -/
theorem sorted_sortByCountDesc (l : List CustFreq) :
    List.Sorted (fun a b : CustFreq => b.count ≤ a.count) (sortByCountDesc l) := by
  induction l with
  | nil => simp [sortByCountDesc]
  | cons y ys ih => exact sorted_insertByCountDesc y (sortByCountDesc ys) ih

/-- Looking a key up after updating the entry at (a possibly different)
key. -/
theorem lookupC_mapUpdate (m : List (String × CustAgg)) (c c2 : String)
    (f : CustAgg → CustAgg) :
    lookupC (m.map (fun p => if p.1 = c2 then (p.1, f p.2) else p)) c =
      if c = c2 then (lookupC m c).map f else lookupC m c := by
  induction m with
  | nil => by_cases h : c = c2 <;> simp [lookupC, h]
  | cons p m ih =>
      by_cases hpc : p.1 = c
      · by_cases hcc : c = c2
        · have hp2 : p.1 = c2 := by rw [hpc, hcc]
          simp [lookupC, List.find?_cons, hpc, hp2, hcc]
        · have hp2 : ¬ p.1 = c2 := by rw [hpc]; exact hcc
          simp [lookupC, List.find?_cons, hpc, hp2, hcc]
      · have hmain : lookupC (List.map (fun p => if p.1 = c2 then (p.1, f p.2) else p) m) c =
            if c = c2 then (lookupC m c).map f else lookupC m c := ih
        by_cases hp2 : p.1 = c2
        · simp only [List.map_cons, if_pos hp2, lookupC, List.find?_cons]
          have : (decide (p.1 = c)) = false := by simp [hpc]
          simp only [this]
          simp only [lookupC] at hmain
          by_cases hcc : c = c2 <;> simp [hcc] at hmain ⊢ <;> exact hmain
        · simp only [List.map_cons, if_neg hp2, lookupC, List.find?_cons]
          have : (decide (p.1 = c)) = false := by simp [hpc]
          simp only [this]
          simp only [lookupC] at hmain
          by_cases hcc : c = c2 <;> simp [hcc] at hmain ⊢ <;> exact hmain

/-- Looking a key up after appending a fresh entry. -/
theorem lookupC_append_single (m : List (String × CustAgg)) (c c2 : String)
    (a : CustAgg) :
    lookupC (m ++ [(c2, a)]) c =
      match lookupC m c with
      | some x => some x
      | none => if c2 = c then some a else none := by
  induction m with
  | nil => by_cases h : c2 = c <;> simp [lookupC, List.find?_cons, h]
  | cons p m ih =>
      by_cases hpc : p.1 = c
      · simp [lookupC, List.find?_cons, hpc]
      · simp only [List.cons_append, lookupC, List.find?_cons] at ih ⊢
        have : (decide (p.1 = c)) = false := by simp [hpc]
        simp only [this]
        exact ih

/-- One aggregation step keeps the contact keys duplicate-free. -/
theorem keys_nodup_custStep (dateRange : Option (Nat × Nat))
    (m : List (String × CustAgg)) (r : Review)
    (h : (m.map Prod.fst).Nodup) :
    ((custStep dateRange m r).map Prod.fst).Nodup := by
  cases hck : contactKey r with
  | none => simpa [custStep, hck] using h
  | some c =>
      by_cases hdr : inDateRange dateRange r.createdAt
      · cases hf : m.find? (fun p => p.1 = c) with
        | some q =>
            have hkeys : ((m.map (fun p => if p.1 = c then (p.1, updAgg p.2 r) else p)).map
                Prod.fst) = m.map Prod.fst := by
              rw [List.map_map]
              apply List.map_congr_left
              intro p _
              by_cases h2 : p.1 = c <;> simp [h2]
            simp only [custStep, hck, hdr, Bool.not_true, if_false, hf]
            rw [if_neg Bool.false_ne_true, hkeys]
            exact h
        | none =>
            have hnotmem : c ∉ m.map Prod.fst := by
              intro hmem
              obtain ⟨p, hp, hpc⟩ := List.mem_map.mp hmem
              have := List.find?_eq_none.mp hf p hp
              simp [hpc] at this
            simp only [custStep, hck, hdr, Bool.not_true, if_false, hf]
            rw [if_neg Bool.false_ne_true, List.map_append]
            simp [List.nodup_append, h, hnotmem]
      · simp only [custStep, hck]
        rw [if_pos (by simp [hdr])]
        exact h

/-- Folding any review list keeps the contact keys duplicate-free. -/
theorem keys_nodup_fold (rs : List Review) (dateRange : Option (Nat × Nat)) :
    ∀ m, (m.map Prod.fst).Nodup →
      ((rs.foldl (custStep dateRange) m).map Prod.fst).Nodup := by
  induction rs with
  | nil => intro m h; exact h
  | cons r rs ih =>
      intro m h
      exact ih _ (keys_nodup_custStep dateRange m r h)

/-- With duplicate-free keys, lookup returns every stored entry. -/
theorem lookupC_of_mem (m : List (String × CustAgg)) :
    (m.map Prod.fst).Nodup → ∀ p ∈ m, lookupC m p.1 = some p.2 := by
  induction m with
  | nil =>
      intro _ p hp
      cases hp
  | cons q m ih =>
      intro hnd p hp
      rw [List.map_cons, List.nodup_cons] at hnd
      rcases List.mem_cons.mp hp with rfl | hp
      · simp [lookupC, List.find?_cons]
      · have hq : ¬ q.1 = p.1 := by
          intro he
          apply hnd.1
          rw [he]
          exact List.mem_map.mpr ⟨p, hp, rfl⟩
        simp only [lookupC, List.find?_cons]
        have hdec : (decide (q.1 = p.1)) = false := by simp [hq]
        simp only [hdec]
        exact ih hnd.2 p hp

/-- After folding the store with no date filter, the entry at a contact
key is exactly the fold of that contact's review group. -/
theorem lookupC_fold_custStep (rs : List Review) :
    ∀ (m : List (String × CustAgg)) (c : String),
      lookupC (rs.foldl (custStep none) m) c =
        (rs.filter (fun r => contactKey r = some c)).foldl stepOpt (lookupC m c) := by
  induction rs with
  | nil => intro m c; rfl
  | cons r rs ih =>
      intro m c
      have hstep : (r :: rs).foldl (custStep none) m =
          rs.foldl (custStep none) (custStep none m r) := rfl
      rw [hstep, ih]
      cases hck : contactKey r with
      | none =>
          have h1 : custStep none m r = m := by simp [custStep, hck]
          have h2 : (r :: rs).filter (fun r2 => contactKey r2 = some c) =
              rs.filter (fun r2 => contactKey r2 = some c) := by
            rw [List.filter_cons]
            simp [hck]
          rw [h1, h2]
      | some c2 =>
          by_cases hcc : c2 = c
          · subst hcc
            have h2 : (r :: rs).filter (fun r2 => contactKey r2 = some c2) =
                r :: rs.filter (fun r2 => contactKey r2 = some c2) := by
              rw [List.filter_cons]
              simp [hck]
            rw [h2, List.foldl_cons]
            congr 1
            cases hf : m.find? (fun p => p.1 = c2) with
            | some q =>
                simp only [custStep, hck, inDateRange, Bool.not_true, if_false, hf]
                rw [if_neg Bool.false_ne_true,
                  lookupC_mapUpdate m c2 c2 (fun a => updAgg a r), if_pos rfl]
                have hl : lookupC m c2 = some q.2 := by
                  rw [lookupC, hf]
                  rfl
                rw [hl]
                rfl
            | none =>
                simp only [custStep, hck, inDateRange, Bool.not_true, if_false, hf]
                rw [if_neg Bool.false_ne_true, lookupC_append_single m c2 c2 (initAgg r)]
                have hl : lookupC m c2 = none := by
                  rw [lookupC, hf]
                  rfl
                rw [hl]
                simp [stepOpt]
          · have h2 : (r :: rs).filter (fun r2 => contactKey r2 = some c) =
                rs.filter (fun r2 => contactKey r2 = some c) := by
              rw [List.filter_cons]
              simp [hck, hcc]
            rw [h2]
            congr 1
            cases hf : m.find? (fun p => p.1 = c2) with
            | some q =>
                simp only [custStep, hck, inDateRange, Bool.not_true, if_false, hf]
                rw [if_neg Bool.false_ne_true, lookupC_mapUpdate m c c2 (fun a => updAgg a r)]
                have hcc2 : ¬ c = c2 := fun he => hcc he.symm
                rw [if_neg hcc2]
            | none =>
                simp only [custStep, hck, inDateRange, Bool.not_true, if_false, hf]
                rw [if_neg Bool.false_ne_true, lookupC_append_single m c c2 (initAgg r)]
                cases hl : lookupC m c with
                | some x => simp
                | none => simp [hcc]

/-- Folding a review list into an existing entry: the count grows by the
list length, the name is kept when already set and otherwise becomes the
group's first non-empty name, and the last-review date only grows, to the
maximum of the old date and the folded creation dates. -/
theorem foldl_stepOpt_some (g : List Review) :
    ∀ a : CustAgg, ∃ b : CustAgg, g.foldl stepOpt (some a) = some b ∧
      b.count = a.count + g.length ∧
      b.customerName = (if truthyStr a.customerName then a.customerName
        else
          match firstName g with
          | some n => some n
          | none => a.customerName) ∧
      a.lastReview ≤ b.lastReview ∧
      (b.lastReview = a.lastReview ∨ ∃ r ∈ g, b.lastReview = r.createdAt) ∧
      (∀ r ∈ g, r.createdAt ≤ b.lastReview) := by
  induction g with
  | nil =>
      intro a
      refine ⟨a, rfl, by simp, ?_, le_refl _, Or.inl rfl, by simp⟩
      by_cases h : truthyStr a.customerName <;> simp [h, firstName]
  | cons r g ih =>
      intro a
      obtain ⟨b, hb, hc, hn, hl1, hl2, hl3⟩ := ih (updAgg a r)
      have hfold : (r :: g).foldl stepOpt (some a) =
          g.foldl stepOpt (some (updAgg a r)) := rfl
      have hup1 : a.lastReview ≤ (updAgg a r).lastReview := by
        simp only [updAgg]
        split <;> omega
      have hup2 : r.createdAt ≤ (updAgg a r).lastReview := by
        simp only [updAgg]
        split <;> omega
      refine ⟨b, by rw [hfold]; exact hb, ?_, ?_, le_trans hup1 hl1, ?_, ?_⟩
      · rw [hc]
        simp only [updAgg, List.length_cons]
        omega
      · rw [hn]
        by_cases ha : truthyStr a.customerName
        · have hupd : (updAgg a r).customerName = a.customerName := by
            simp [updAgg, ha]
          rw [hupd]
          simp [ha]
        · by_cases hr : truthyStr r.customerName
          · have hupd : (updAgg a r).customerName = r.customerName := by
              simp [updAgg, ha, hr]
            have hfn : firstName (r :: g) = r.customerName := by
              simp [firstName, List.find?_cons, hr]
            rw [hupd, hfn]
            cases hrc : r.customerName with
            | none =>
                rw [hrc] at hr
                simp [truthyStr] at hr
            | some s =>
                rw [hrc] at hr
                simp only [truthyStr] at hr ha ⊢
                have hs : s ≠ "" := by simpa using hr
                cases hac : a.customerName with
                | none => simp [hs]
                | some t =>
                    rw [hac] at ha
                    simp at ha
                    simp [ha, hs]
          · have hupd : (updAgg a r).customerName = a.customerName := by
              simp [updAgg, hr]
            have hfn : firstName (r :: g) = firstName g := by
              simp [firstName, List.find?_cons, hr]
            rw [hupd, hfn]
      · rcases hl2 with h | ⟨r2, hr2, he⟩
        · by_cases hlt : a.lastReview < r.createdAt
          · refine Or.inr ⟨r, List.mem_cons_self r g, ?_⟩
            rw [h]
            simp [updAgg, hlt]
          · refine Or.inl ?_
            rw [h]
            simp [updAgg, hlt]
        · exact Or.inr ⟨r2, List.mem_cons_of_mem r hr2, he⟩
      · intro r2 hr2
        rcases List.mem_cons.mp hr2 with rfl | hr2
        · exact le_trans hup2 hl1
        · exact hl3 r2 hr2

/-- Folding a non-empty contact group from scratch: the count is the group
size, the name is the group's first non-empty name, and the last-review
date is the maximal creation date of the group. -/
theorem foldl_stepOpt_group (g0 : List Review) (hne : g0 ≠ []) :
    ∃ b, g0.foldl stepOpt none = some b ∧
      b.count = g0.length ∧
      b.customerName = firstName g0 ∧
      (∃ r ∈ g0, b.lastReview = r.createdAt) ∧
      (∀ r ∈ g0, r.createdAt ≤ b.lastReview) := by
  obtain ⟨r, g, rfl⟩ := List.exists_cons_of_ne_nil hne
  obtain ⟨b, hb, hc, hn, hl1, hl2, hl3⟩ := foldl_stepOpt_some g (initAgg r)
  have hfold : (r :: g).foldl stepOpt none = g.foldl stepOpt (some (initAgg r)) := rfl
  refine ⟨b, by rw [hfold]; exact hb, ?_, ?_, ?_, ?_⟩
  · rw [hc]
    simp [initAgg]
    omega
  · rw [hn]
    by_cases hr : truthyStr r.customerName
    · have h1 : (initAgg r).customerName = r.customerName := by
        simp [initAgg, hr]
      have hfn : firstName (r :: g) = r.customerName := by
        simp [firstName, List.find?_cons, hr]
      rw [h1, hfn]
      simp [hr]
    · have h1 : (initAgg r).customerName = none := by
        simp [initAgg, hr]
      have hfn : firstName (r :: g) = firstName g := by
        simp [firstName, List.find?_cons, hr]
      rw [h1, hfn]
      simp only [truthyStr]
      cases firstName g <;> simp
  · rcases hl2 with h | ⟨r2, hr2, he⟩
    · refine ⟨r, List.mem_cons_self r g, ?_⟩
      rw [h]
      rfl
    · exact ⟨r2, List.mem_cons_of_mem r hr2, he⟩
  · intro r2 hr2
    rcases List.mem_cons.mp hr2 with rfl | hr2
    · exact le_trans (by simp [initAgg]) hl1
    · exact hl3 r2 hr2

/-- C7: every row of `getCustomerFrequency` describes a non-empty contact
group of at least `minReviews` reviews — its count is the group size, its
customer name the group's first non-empty name, its last-review date the
group's maximal creation date (reviews without a contact belong to no
group and are excluded entirely); conversely every contact group of at
least one review and size at least `minReviews` yields a row; and the rows
are sorted by count, descending. -/
theorem customer_frequency_grouping (store : List Review) (minReviews : Nat) :
    (∀ x ∈ getCustomerFrequency store none minReviews,
      groupReviews x.contact store ≠ [] ∧
      minReviews ≤ (groupReviews x.contact store).length ∧
      x.count = (groupReviews x.contact store).length ∧
      x.customerName = firstName (groupReviews x.contact store) ∧
      (∃ r ∈ groupReviews x.contact store, x.lastReview = r.createdAt) ∧
      (∀ r ∈ groupReviews x.contact store, r.createdAt ≤ x.lastReview)) ∧
    (∀ c : String, groupReviews c store ≠ [] →
      minReviews ≤ (groupReviews c store).length →
      ∃ x ∈ getCustomerFrequency store none minReviews, x.contact = c) ∧
    List.Sorted (fun a b : CustFreq => b.count ≤ a.count)
      (getCustomerFrequency store none minReviews) := by
  have hnodup : ((store.foldl (custStep none) []).map Prod.fst).Nodup :=
    keys_nodup_fold store none [] (by simp)
  refine ⟨?_, ?_, sorted_sortByCountDesc _⟩
  · intro x hx
    rw [getCustomerFrequency, mem_sortByCountDesc] at hx
    obtain ⟨p, hpf, hpx⟩ := List.mem_map.mp hx
    obtain ⟨hpm, hpc⟩ := List.mem_filter.mp hpf
    have hmin : minReviews ≤ p.2.count := by simpa using hpc
    have hlook : lookupC (store.foldl (custStep none) []) p.1 = some p.2 :=
      lookupC_of_mem _ hnodup p hpm
    rw [lookupC_fold_custStep store [] p.1] at hlook
    have h0 : lookupC ([] : List (String × CustAgg)) p.1 = none := rfl
    rw [h0] at hlook
    have hgg : store.filter (fun r => contactKey r = some p.1) =
        groupReviews p.1 store := rfl
    rw [hgg] at hlook
    by_cases hg : groupReviews p.1 store = []
    · rw [hg] at hlook
      cases hlook
    obtain ⟨b, hb, hbc, hbn, hbl1, hbl2⟩ := foldl_stepOpt_group _ hg
    rw [hb] at hlook
    have hbp : b = p.2 := Option.some.inj hlook
    subst hbp
    rw [← hpx]
    simp only [toCustFreq]
    refine ⟨hg, ?_, hbc, hbn, hbl1, hbl2⟩
    rw [← hbc]
    exact hmin
  · intro c hg hmin
    have hlook := lookupC_fold_custStep store [] c
    have h0 : lookupC ([] : List (String × CustAgg)) c = none := rfl
    rw [h0] at hlook
    have hgg : store.filter (fun r => contactKey r = some c) =
        groupReviews c store := rfl
    rw [hgg] at hlook
    obtain ⟨b, hb, hbc, _, _, _⟩ := foldl_stepOpt_group _ hg
    rw [hb] at hlook
    obtain ⟨q, hq, hq2⟩ : ∃ q, (store.foldl (custStep none) []).find?
        (fun p => p.1 = c) = some q ∧ q.2 = b := by
      rw [lookupC] at hlook
      cases hf : (store.foldl (custStep none) []).find? (fun p => p.1 = c) with
      | none =>
          rw [hf] at hlook
          cases hlook
      | some q =>
          rw [hf] at hlook
          exact ⟨q, rfl, Option.some.inj hlook⟩
    have hqmem : q ∈ store.foldl (custStep none) [] := List.mem_of_find?_eq_some hq
    have hqc : q.1 = c := by simpa using List.find?_some hq
    refine ⟨toCustFreq q, ?_, by simp [toCustFreq, hqc]⟩
    rw [getCustomerFrequency, mem_sortByCountDesc]
    apply List.mem_map.mpr
    refine ⟨q, List.mem_filter.mpr ⟨hqmem, ?_⟩, rfl⟩
    have : q.2.count = (groupReviews c store).length := by rw [hq2, hbc]
    simp [this, hmin]

/-- Witness for C7 on the concrete fixture with `minReviews = 2`: the
contact with two reviews forms a non-empty group of size 2 and appears in
the output (the theorem applied at the fixture), while the full output —
projected to contact and count — contains only that contact, excluding
both the single-review contact and the contact-less review. -/
theorem customer_frequency_grouping_witness :
    groupReviews "0790000001" fixtureCust ≠ [] ∧
    2 ≤ (groupReviews "0790000001" fixtureCust).length ∧
    (∃ x ∈ getCustomerFrequency fixtureCust none 2, x.contact = "0790000001") ∧
    (getCustomerFrequency fixtureCust none 2).map (fun x => (x.contact, x.count)) =
      [("0790000001", 2)] := by
  refine ⟨by decide, by decide, ?_, by decide⟩
  exact (customer_frequency_grouping fixtureCust 2).2.1 "0790000001"
    (by decide) (by decide)

end RestaurantFeedback
